import Mathlib

/-!
# Verification of `util.go` (package `couchbase`)

A shallow embedding of the five utilities of `util.go`:

* `CleanupHost`, `FindCommonSuffix` : pure string functions;
* `ParseURL` : a wrapper around `url.Parse`, the parser being an argument;
* `TraceEnter`, `TraceEnterExtra`, `TraceExit` : the call tracer, with the
  runtime (stack introspection, clock, logger) passed explicitly.

Go strings are byte sequences, Go `int` values are integers, and an
out-of-range slice or index expression (a run-time panic in Go) is the value
`none`.
-/

namespace Couchbase

/-! ## Go strings -/

/-- A Go string: an immutable sequence of bytes. -/
abbrev GoString := List UInt8

/-- The bytes of a string literal (Go source text is UTF-8). -/
def lit (s : String) : GoString := s.data.flatMap String.utf8EncodeChar

/-- Go `len(s)`, of type `int`. -/
def len (s : GoString) : Int := (s.length : Int)

/-- Go slice expression `s[lo:]`; `none` is the out-of-range panic. -/
def sliceFrom (s : GoString) (lo : Int) : Option GoString :=
  if 0 ≤ lo ∧ lo ≤ len s then some (s.drop lo.toNat) else none

/-- Go slice expression `s[:hi]`; `none` is the out-of-range panic. -/
def sliceTo (s : GoString) (hi : Int) : Option GoString :=
  if 0 ≤ hi ∧ hi ≤ len s then some (s.take hi.toNat) else none

/-- Go `strings.HasSuffix`, whose body in the standard library is
`len(s) >= len(suffix) && s[len(s)-len(suffix):] == suffix`. -/
def HasSuffix (s suffix : GoString) : Bool :=
  decide (len s ≥ len suffix) && (sliceFrom s (len s - len suffix) == some suffix)

/-! ## SuffixTools -/

/-- `CleanupHost(h, commonSuffix)`, lines 17-22. -/
def CleanupHost (h commonSuffix : GoString) : Option GoString :=
  if HasSuffix h commonSuffix then
    sliceTo h (len h - len commonSuffix)
  else
    some h

/-- The inner loop of `FindCommonSuffix`, lines 33-40: `common` starts `true`
and the first string of `from` that lacks `suffix` sets it `false` and breaks.
The value is `common` after the loop. -/
def commonLoop (suffix : GoString) : List GoString → Bool
  | [] => true
  | s :: rest => if !HasSuffix s suffix then false else commonLoop suffix rest

/-- The outer loop of `FindCommonSuffix`, lines 32-44, entered with counter
value `i` and current result `rv`; `first` is `input[0]`. The loop runs while
`i > 0` and decrements `i`. -/
def suffixLoop (input : List GoString) (first : GoString) : Nat → GoString → Option GoString
  | 0, rv => some rv
  | i + 1, rv =>
    match sliceFrom first ((i + 1 : Nat) : Int) with
    | none => none
    | some suffix =>
      suffixLoop input first i (if commonLoop suffix input then suffix else rv)

/-- `FindCommonSuffix(input)`, lines 26-46. -/
def FindCommonSuffix (input : List GoString) : Option GoString :=
  if input.length < 2 then some []
  else
    match input with
    | [] => none
    | first :: _ => suffixLoop input first first.length []

/-- A string `c` is shared by `input`: it is a suffix of every element. -/
def IsCommonSuffix (input : List GoString) (c : GoString) : Prop :=
  ∀ s ∈ input, c <:+ s

/-- The glossary's common suffix: `c` is shared by every string of `input`
and no shared suffix is longer. -/
def IsLongestCommonSuffix (input : List GoString) (c : GoString) : Prop :=
  IsCommonSuffix input c ∧ ∀ t, IsCommonSuffix input t → t.length ≤ c.length

/-! ## URLValidator -/

/-- A value of Go's `url.URL`: the scheme, which `ParseURL` reads, and the
host, path, query and fragment components; the other fields play no role. -/
structure URL where
  Scheme : GoString
  Host : GoString
  Path : GoString
  RawQuery : GoString
  Fragment : GoString
deriving DecidableEq

/-- Go `error` values seen by `ParseURL`: one made by the URL parser, or one
made by `fmt.Errorf`. -/
inductive GoError where
  | external (msg : GoString)
  | errorf (msg : GoString)
deriving DecidableEq

/-- The `Error()` method: the message of an error value. -/
def GoError.Error : GoError → GoString
  | .external msg => msg
  | .errorf msg => msg

/-- `ParseURL(urlStr)`, lines 49-56. `parse` is `url.Parse`; a nil `*url.URL`
or a nil `error` is `none`. -/
def ParseURL (parse : GoString → Option URL × Option GoError) (urlStr : GoString) :
    Option URL × Option GoError :=
  match parse urlStr with
  | (some result, err) =>
    if result.Scheme = [] then
      (none, some (GoError.errorf (lit "invalid URL <" ++ urlStr ++ lit ">")))
    else
      (some result, err)
  | (none, err) => (none, err)

/-! ## CallTracer -/

/-- What the tracer reads from the Go runtime at a call: `Caller skip` is
`runtime.Caller(skip)` (the program counter when `ok`), `FuncName pc` is
`runtime.FuncForPC(pc).Name()`, `Now` is `time.Now()` and `Since t` is
`time.Since(t)` in nanoseconds. -/
structure Runtime where
  Caller : Nat → Option Nat
  FuncName : Nat → GoString
  Now : Int
  Since : Int → Int

/-- The text after the last `.` of `s`, if `s` holds a `.` (byte 46). -/
def afterLastDot : GoString → Option GoString
  | [] => none
  | c :: rest =>
    match afterLastDot rest with
    | some t => some t
    | none => if c = 46 then some rest else none

/-- `RE_stripFnPreamble.ReplaceAllString(name, "$1")` for the pattern
`^.*\.(.*)$`: the pattern matches the whole text when it has a `.` and no
newline (byte 10), the greedy `.*` then ends at the last `.`; a text that
does not match is returned as it is. -/
def stripFnPreamble (name : GoString) : GoString :=
  if (10 : UInt8) ∈ name then name
  else
    match afterLastDot name with
    | some t => t
    | none => name

/-- `TraceEnter()`, lines 62-76. -/
def TraceEnter (rt : Runtime) : GoString × Int :=
  let functionName :=
    match rt.Caller 1 with
    | some pc => stripFnPreamble (rt.FuncName pc)
    | none => lit "<unknown>"
  (functionName, rt.Now)

/-- `TraceEnterExtra(extraIdentifier)`, lines 79-98. -/
def TraceEnterExtra (rt : Runtime) (extraIdentifier : GoString) : GoString × Int :=
  let functionName :=
    match rt.Caller 1 with
    | some pc => stripFnPreamble (rt.FuncName pc)
    | none => lit "<unknown>"
  let functionName :=
    if extraIdentifier ≠ [] then functionName ++ lit "-" ++ extraIdentifier
    else functionName
  (functionName, rt.Now)

/-- Arithmetic of `float64`: finite values are rationals, `rnd` rounds an
exact result to the nearest value, and `fmt` is the `%v` text of a value. -/
structure Float64 where
  rnd : ℚ → ℚ
  fmt : ℚ → GoString

/-- What `TraceExit` uses of IEEE-754 rounding to nearest: it is monotone,
and the integers up to `2^53` and the value `1 - 2^(-53)` are exact. -/
structure Float64.Sound (fl : Float64) : Prop where
  mono : ∀ x y : ℚ, x ≤ y → fl.rnd x ≤ fl.rnd y
  exact_int : ∀ n : Int, |n| ≤ 2 ^ 53 → fl.rnd (n : ℚ) = (n : ℚ)
  exact_below_one : fl.rnd (1 - 1 / 2 ^ 53) = 1 - 1 / 2 ^ 53

/-- Exact arithmetic, a sound instance of `Float64`. -/
def exactFloat (fmt : ℚ → GoString) : Float64 := ⟨fun x => x, fmt⟩

/-- Go `time.Duration.Seconds`, whose body in the standard library is
`sec := d / Second; nsec := d % Second; return float64(sec) + float64(nsec)/1e9`;
integer division truncates toward zero. -/
def Seconds (fl : Float64) (d : Int) : ℚ :=
  let sec := Int.tdiv d 1000000000
  let nsec := Int.tmod d 1000000000
  fl.rnd (fl.rnd (sec : ℚ) + fl.rnd (fl.rnd (nsec : ℚ) / 1000000000))

/-- `TraceExit(functionName, timeEntered)`, lines 100-107. The value is the
list of messages handed to `log.Printf`. -/
def TraceExit (rt : Runtime) (fl : Float64) (functionName : GoString) (timeEntered : Int) :
    List GoString :=
  let delta := rt.Since timeEntered
  if Seconds fl delta ≥ 1 then
    [functionName ++ lit "() took " ++ fl.fmt (Seconds fl delta) ++ lit " seconds"]
  else
    []

/-! ## Demonstration inputs -/

/-- A parser outcome for `host/path`: a URL without a scheme. -/
def parseNoScheme : GoString → Option URL × Option GoError :=
  fun raw => (some ⟨[], [], raw, [], []⟩, none)

/-- A parser outcome for `http://host/path`. -/
def parseHttp : GoString → Option URL × Option GoError :=
  fun _ => (some ⟨lit "http", lit "host", lit "/path", [], []⟩, none)

/-- A parser that fails on every input. -/
def parseFails : GoString → Option URL × Option GoError :=
  fun _ => (none, some (GoError.external (lit "parse error")))

/-- A runtime in which the tracer is called from `main.Foo`, `elapsed`
nanoseconds after any entry time. -/
def fooRuntime (elapsed : Int) : Runtime :=
  ⟨fun skip => if skip = 1 then some 4096 else none, fun _ => lit "main.Foo", 0,
    fun _ => elapsed⟩

/-! ## Lemmas on slices and `HasSuffix` -/

theorem sliceFrom_natCast (s : GoString) (i : Nat) (h : i ≤ s.length) :
    sliceFrom s (i : Int) = some (s.drop i) := by
  have h2 : (i : Int) ≤ len s := by
    unfold len
    exact_mod_cast h
  simp [sliceFrom, h2]

theorem hasSuffix_iff (s t : GoString) : HasSuffix s t = true ↔ t <:+ s := by
  constructor
  · intro h
    simp only [HasSuffix, Bool.and_eq_true, decide_eq_true_eq, beq_iff_eq] at h
    obtain ⟨h1, h2⟩ := h
    have h3 : t.length ≤ s.length := by
      unfold len at h1
      exact_mod_cast h1
    have h4 : len s - len t = ((s.length - t.length : Nat) : Int) := by
      unfold len
      omega
    rw [h4, sliceFrom_natCast s _ (Nat.sub_le _ _)] at h2
    rw [List.suffix_iff_eq_drop]
    exact (Option.some.inj h2).symm
  · intro h
    have h3 : t.length ≤ s.length := h.length_le
    have h1 : len s ≥ len t := by
      unfold len
      exact_mod_cast h3
    have h4 : len s - len t = ((s.length - t.length : Nat) : Int) := by
      unfold len
      omega
    simp only [HasSuffix, Bool.and_eq_true, decide_eq_true_eq, beq_iff_eq]
    refine ⟨h1, ?_⟩
    rw [h4, sliceFrom_natCast s _ (Nat.sub_le _ _)]
    rw [List.suffix_iff_eq_drop] at h
    rw [← h]

theorem commonLoop_iff (suffix : GoString) (input : List GoString) :
    commonLoop suffix input = true ↔ IsCommonSuffix input suffix := by
  induction input with
  | nil => simp [commonLoop, IsCommonSuffix]
  | cons s rest ih =>
    unfold commonLoop
    by_cases hs : HasSuffix s suffix = true
    · have hs2 := (hasSuffix_iff s suffix).1 hs
      simp only [hs, Bool.not_true, Bool.false_eq_true, if_false, ih]
      simp [IsCommonSuffix, hs2]
    · have hs2 : ¬ suffix <:+ s := fun h => hs ((hasSuffix_iff s suffix).2 h)
      simp only [Bool.not_eq_true] at hs
      simp [hs, IsCommonSuffix, hs2]

/-! ## The outer loop of `FindCommonSuffix` -/

/-- The loop entered at counter `i` ends, and its result is either the entry
value `rv` (no candidate `first[j:]`, `1 ≤ j ≤ i`, is shared) or the shared
candidate `first[j:]` of least index `j` in `1 ≤ j ≤ i`. -/
theorem suffixLoop_spec (input : List GoString) (first : GoString) :
    ∀ (i : Nat) (rv : GoString), i ≤ first.length →
      ∃ r, suffixLoop input first i rv = some r ∧
        ((r = rv ∧ ∀ j, 1 ≤ j → j ≤ i → ¬ IsCommonSuffix input (first.drop j)) ∨
         (∃ j, 1 ≤ j ∧ j ≤ i ∧ r = first.drop j ∧ IsCommonSuffix input (first.drop j) ∧
            ∀ k, 1 ≤ k → k < j → ¬ IsCommonSuffix input (first.drop k))) := by
  intro i
  induction i with
  | zero =>
    intro rv _
    exact ⟨rv, rfl, Or.inl ⟨rfl, fun j h1 h2 => by omega⟩⟩
  | succ i ih =>
    intro rv hi
    have hs := sliceFrom_natCast first (i + 1) hi
    have hi2 : i ≤ first.length := by omega
    by_cases hc : commonLoop (first.drop (i + 1)) input = true
    · obtain ⟨r, hr, hcase⟩ := ih (first.drop (i + 1)) hi2
      refine ⟨r, ?_, ?_⟩
      · simp only [suffixLoop, hs, hc, if_true]
        exact hr
      · have hcom := (commonLoop_iff _ _).1 hc
        rcases hcase with ⟨hrv, hnone⟩ | ⟨j, hj1, hj2, hrj, hcj, hmin⟩
        · refine Or.inr ⟨i + 1, by omega, le_refl _, hrv, hcom, ?_⟩
          intro k hk1 hk2
          exact hnone k hk1 (by omega)
        · exact Or.inr ⟨j, hj1, by omega, hrj, hcj, hmin⟩
    · obtain ⟨r, hr, hcase⟩ := ih rv hi2
      refine ⟨r, ?_, ?_⟩
      · simp only [suffixLoop, hs, hc]
        exact hr
      · have hcom : ¬ IsCommonSuffix input (first.drop (i + 1)) :=
          fun h => hc ((commonLoop_iff _ _).2 h)
        rcases hcase with ⟨hrv, hnone⟩ | ⟨j, hj1, hj2, hrj, hcj, hmin⟩
        · refine Or.inl ⟨hrv, ?_⟩
          intro j hj1 hj2
          by_cases hji : j = i + 1
          · rw [hji]
            exact hcom
          · exact hnone j hj1 (by omega)
        · exact Or.inr ⟨j, hj1, by omega, hrj, hcj, hmin⟩

/-- The empty string is shared by every list. -/
theorem isCommonSuffix_nil (input : List GoString) : IsCommonSuffix input [] :=
  fun _ _ => List.nil_suffix

/-- On a list of at least two strings whose first string is not empty, the
result is the shared candidate `first[j:]` of least index `j ≥ 1`. -/
theorem findCommonSuffix_least (first : GoString) (rest : List GoString)
    (hlen : 2 ≤ (first :: rest).length) (hne : first ≠ []) :
    ∃ j, 1 ≤ j ∧ j ≤ first.length ∧
      FindCommonSuffix (first :: rest) = some (first.drop j) ∧
      IsCommonSuffix (first :: rest) (first.drop j) ∧
      ∀ k, 1 ≤ k → k < j → ¬ IsCommonSuffix (first :: rest) (first.drop k) := by
  have hlt : ¬ (first :: rest).length < 2 := by omega
  obtain ⟨r, hr, hcase⟩ := suffixLoop_spec (first :: rest) first first.length [] (le_refl _)
  have hfc : FindCommonSuffix (first :: rest) = some r := by
    unfold FindCommonSuffix
    rw [if_neg hlt]
    exact hr
  have hpos : 1 ≤ first.length := by
    cases first with
    | nil => exact absurd rfl hne
    | cons c t => simp
  rcases hcase with ⟨_, hnone⟩ | ⟨j, hj1, hj2, hrj, hcj, hmin⟩
  · exfalso
    apply hnone first.length hpos (le_refl _)
    rw [List.drop_length]
    exact isCommonSuffix_nil _
  · exact ⟨j, hj1, hj2, by rw [hfc, hrj], hcj, hmin⟩

/-- On a list of at least two strings whose first string is empty, the loop
body never runs and the result is the empty string. -/
theorem findCommonSuffix_first_empty (rest : List GoString)
    (hlen : 2 ≤ (([] : GoString) :: rest).length) :
    FindCommonSuffix (([] : GoString) :: rest) = some [] := by
  have hlt : ¬ (([] : GoString) :: rest).length < 2 := by omega
  unfold FindCommonSuffix
  rw [if_neg hlt]
  rfl

/-- A shared suffix is a suffix of the first string, hence a candidate. -/
theorem isCommonSuffix_eq_drop (first : GoString) (rest : List GoString) (t : GoString)
    (ht : IsCommonSuffix (first :: rest) t) :
    t = first.drop (first.length - t.length) ∧ t.length ≤ first.length := by
  have h1 : t <:+ first := ht first (List.mem_cons_self _ _)
  exact ⟨List.suffix_iff_eq_drop.1 h1, h1.length_le⟩

/-- Shorter candidates of a shared candidate are shared. -/
theorem isCommonSuffix_drop_mono (input : List GoString) (first : GoString) (j k : Nat)
    (hjk : j ≤ k) (h : IsCommonSuffix input (first.drop j)) :
    IsCommonSuffix input (first.drop k) := by
  intro s hs
  have h1 : first.drop k <:+ first.drop j := by
    have : first.drop k = (first.drop j).drop (k - j) := by
      rw [List.drop_drop]
      congr 1
      omega
    rw [this]
    exact List.drop_suffix _ _
  exact h1.trans (h s hs)

/-! ## `Seconds` against the one-second threshold -/

/-- Truncated division by `10^9`: floor division on `d ≥ 0`, and a quotient
and remainder that are not positive on `d < 0`. -/
theorem tdiv_tmod_second (d : Int) :
    (0 ≤ d ∧ Int.tdiv d 1000000000 = d / 1000000000 ∧
      Int.tmod d 1000000000 = d % 1000000000) ∨
    (d < 0 ∧ Int.tdiv d 1000000000 ≤ 0 ∧ Int.tmod d 1000000000 ≤ 0) := by
  by_cases hd : 0 ≤ d
  · exact Or.inl ⟨hd, Int.tdiv_eq_ediv hd (by norm_num), Int.tmod_eq_emod hd (by norm_num)⟩
  · have hneg : 0 ≤ -d := by omega
    have h1 : Int.tdiv (-(-d)) 1000000000 = -(Int.tdiv (-d) 1000000000) := Int.neg_tdiv _ _
    rw [neg_neg, Int.tdiv_eq_ediv hneg (by norm_num)] at h1
    have h2 := Int.tdiv_add_tmod d 1000000000
    refine Or.inr ⟨by omega, by omega, by omega⟩

theorem rnd_zero (fl : Float64) (hfl : fl.Sound) : fl.rnd 0 = 0 := by
  have := hfl.exact_int 0 (by norm_num)
  simpa using this

theorem rnd_one (fl : Float64) (hfl : fl.Sound) : fl.rnd 1 = 1 := by
  have := hfl.exact_int 1 (by norm_num)
  simpa using this

theorem rnd_nonneg (fl : Float64) (hfl : fl.Sound) (x : ℚ) (hx : 0 ≤ x) : 0 ≤ fl.rnd x := by
  have := hfl.mono 0 x hx
  rwa [rnd_zero fl hfl] at this

theorem rnd_nonpos (fl : Float64) (hfl : fl.Sound) (x : ℚ) (hx : x ≤ 0) : fl.rnd x ≤ 0 := by
  have := hfl.mono x 0 hx
  rwa [rnd_zero fl hfl] at this

/-- The value of `d.Seconds()` is at least `1` exactly when `d ≥ 10^9`. -/
theorem seconds_ge_one_iff (fl : Float64) (hfl : fl.Sound) (d : Int) :
    Seconds fl d ≥ 1 ↔ 1000000000 ≤ d := by
  unfold Seconds
  simp only []
  rcases tdiv_tmod_second d with ⟨hd, hq, hr⟩ | ⟨hd, hq, hr⟩
  · rw [hq, hr]
    by_cases hge : 1000000000 ≤ d
    · have hsec : (1 : Int) ≤ d / 1000000000 := by omega
      have hnsec : (0 : Int) ≤ d % 1000000000 := by omega
      have h1 : (1 : ℚ) ≤ fl.rnd ((d / 1000000000 : Int) : ℚ) := by
        have := hfl.mono 1 ((d / 1000000000 : Int) : ℚ) (by exact_mod_cast hsec)
        rwa [rnd_one fl hfl] at this
      have h2 : (0 : ℚ) ≤ fl.rnd ((d % 1000000000 : Int) : ℚ) :=
        rnd_nonneg fl hfl _ (by exact_mod_cast hnsec)
      have h3 : (0 : ℚ) ≤ fl.rnd (fl.rnd ((d % 1000000000 : Int) : ℚ) / 1000000000) :=
        rnd_nonneg fl hfl _ (div_nonneg h2 (by norm_num))
      have h4 := hfl.mono 1 _ (show (1 : ℚ) ≤ fl.rnd ((d / 1000000000 : Int) : ℚ) +
        fl.rnd (fl.rnd ((d % 1000000000 : Int) : ℚ) / 1000000000) by linarith)
      rw [rnd_one fl hfl] at h4
      exact ⟨fun _ => hge, fun _ => h4⟩
    · have hsec : d / 1000000000 = 0 := by omega
      have hnsec : d % 1000000000 = d := by omega
      have hdlt : d ≤ 999999999 := by omega
      rw [hsec, hnsec]
      have hex : fl.rnd ((d : Int) : ℚ) = (d : ℚ) := by
        apply hfl.exact_int
        rw [abs_of_nonneg hd]
        norm_num
        omega
      have hdq : (d : ℚ) ≤ 999999999 := by exact_mod_cast hdlt
      have hq1 : (d : ℚ) / 1000000000 ≤ 1 - 1 / 2 ^ 53 := by
        rw [div_le_iff₀ (by norm_num)]
        have : (999999999 : ℚ) ≤ (1 - 1 / 2 ^ 53) * 1000000000 := by norm_num
        linarith
      have h3 := hfl.mono _ _ hq1
      rw [hfl.exact_below_one] at h3
      have h5 : fl.rnd ((0 : Int) : ℚ) = 0 := by simpa using rnd_zero fl hfl
      rw [hex, h5, zero_add]
      have h4 := hfl.mono _ _ h3
      rw [hfl.exact_below_one] at h4
      have hlt : (1 : ℚ) - 1 / 2 ^ 53 < 1 := by norm_num
      constructor
      · intro h
        exfalso
        have : (1 : ℚ) ≤ 1 - 1 / 2 ^ 53 := le_trans h h4
        linarith
      · intro h
        exact absurd h hge
  · have h1 : fl.rnd ((Int.tdiv d 1000000000 : Int) : ℚ) ≤ 0 :=
      rnd_nonpos fl hfl _ (by exact_mod_cast hq)
    have h2 : fl.rnd ((Int.tmod d 1000000000 : Int) : ℚ) ≤ 0 :=
      rnd_nonpos fl hfl _ (by exact_mod_cast hr)
    have h3 : fl.rnd (fl.rnd ((Int.tmod d 1000000000 : Int) : ℚ) / 1000000000) ≤ 0 :=
      rnd_nonpos fl hfl _ (div_nonpos_of_nonpos_of_nonneg h2 (by norm_num))
    have h4 := rnd_nonpos fl hfl _ (show fl.rnd ((Int.tdiv d 1000000000 : Int) : ℚ) +
        fl.rnd (fl.rnd ((Int.tmod d 1000000000 : Int) : ℚ) / 1000000000) ≤ 0 by linarith)
    constructor
    · intro h
      exfalso
      have : (1 : ℚ) ≤ 0 := le_trans h h4
      linarith
    · intro h
      omega

theorem exactFloat_sound (fmt : ℚ → GoString) : (exactFloat fmt).Sound :=
  ⟨fun _ _ h => h, fun _ _ => rfl, rfl⟩

/-! ## SuffixTools: the claims -/

/-- C3: for every list of strings, of any length, `FindCommonSuffix` returns
a string and that string is a suffix of every string of the list. -/
theorem FindCommonSuffix_shared (input : List GoString) :
    ∃ r, FindCommonSuffix input = some r ∧ ∀ s ∈ input, r <:+ s := by
  by_cases hlt : input.length < 2
  · refine ⟨[], ?_, fun _ _ => List.nil_suffix⟩
    unfold FindCommonSuffix
    rw [if_pos hlt]
  · cases input with
    | nil => simp at hlt
    | cons first rest =>
      have hlen : 2 ≤ (first :: rest).length := by omega
      by_cases hne : first = []
      · subst hne
        exact ⟨[], findCommonSuffix_first_empty rest hlen, fun _ _ => List.nil_suffix⟩
      · obtain ⟨j, _, _, hfc, hcom, _⟩ := findCommonSuffix_least first rest hlen hne
        exact ⟨first.drop j, hfc, hcom⟩

/-- C5: on a list of zero or one strings `FindCommonSuffix` returns the empty
string. -/
theorem FindCommonSuffix_short (input : List GoString) (h : input.length < 2) :
    FindCommonSuffix input = some [] := by
  unfold FindCommonSuffix
  rw [if_pos h]

/-- The guard of C5 at the one-element list `["node1.example.com"]`. -/
theorem FindCommonSuffix_short_witness :
    [lit "node1.example.com"].length < 2 ∧
      FindCommonSuffix [lit "node1.example.com"] = some [] :=
  ⟨by decide, FindCommonSuffix_short [lit "node1.example.com"] (by decide)⟩

/-- C4: `CleanupHost` never panics; when `host` ends with `suffix` the slice
bound is in range and the result `r` satisfies `r ++ suffix = host`; when it
does not, the result is `host`. -/
theorem CleanupHost_spec (host suffix : GoString) :
    (∃ r, CleanupHost host suffix = some r) ∧
    (suffix <:+ host →
      (0 ≤ len host - len suffix ∧ len host - len suffix ≤ len host) ∧
      ∃ r, CleanupHost host suffix = some r ∧ r ++ suffix = host) ∧
    (¬ suffix <:+ host → CleanupHost host suffix = some host) ∧
    CleanupHost (lit "node1.example.com") (lit ".example.com") = some (lit "node1") ∧
    CleanupHost (lit "node1") (lit ".example.com") = some (lit "node1") := by
  have hyes : suffix <:+ host →
      (0 ≤ len host - len suffix ∧ len host - len suffix ≤ len host) ∧
      ∃ r, CleanupHost host suffix = some r ∧ r ++ suffix = host := by
    intro hs
    have hle : suffix.length ≤ host.length := hs.length_le
    have hb : 0 ≤ len host - len suffix ∧ len host - len suffix ≤ len host := by
      unfold len
      omega
    have hcast : len host - len suffix = ((host.length - suffix.length : Nat) : Int) := by
      unfold len
      omega
    refine ⟨hb, host.take (host.length - suffix.length), ?_, ?_⟩
    · unfold CleanupHost
      rw [if_pos ((hasSuffix_iff host suffix).2 hs)]
      unfold sliceTo
      rw [if_pos hb, hcast]
      simp
    · have hd := List.suffix_iff_eq_drop.1 hs
      calc host.take (host.length - suffix.length) ++ suffix
          = host.take (host.length - suffix.length) ++
              host.drop (host.length - suffix.length) := by rw [← hd]
        _ = host := List.take_append_drop _ _
  have hno : ¬ suffix <:+ host → CleanupHost host suffix = some host := by
    intro hs
    have : ¬ HasSuffix host suffix = true := fun h => hs ((hasSuffix_iff host suffix).1 h)
    unfold CleanupHost
    rw [if_neg this]
  refine ⟨?_, hyes, hno, by decide, by decide⟩
  by_cases hs : suffix <:+ host
  · obtain ⟨_, r, hr, _⟩ := hyes hs
    exact ⟨r, hr⟩
  · exact ⟨host, hno hs⟩

/-- The two branches of C4 at the spec's examples. -/
theorem CleanupHost_spec_witness :
    lit ".example.com" <:+ lit "node1.example.com" ∧
    (∃ r, CleanupHost (lit "node1.example.com") (lit ".example.com") = some r ∧
      r ++ lit ".example.com" = lit "node1.example.com") ∧
    ¬ lit ".example.com" <:+ lit "node1" ∧
    CleanupHost (lit "node1") (lit ".example.com") = some (lit "node1") := by
  have h1 : lit ".example.com" <:+ lit "node1.example.com" := ⟨lit "node1", by decide⟩
  have h2 : ¬ lit ".example.com" <:+ lit "node1" := by
    intro h
    have := h.length_le
    revert this
    decide
  exact ⟨h1, ((CleanupHost_spec _ _).2.1 h1).2, h2, (CleanupHost_spec _ _).2.2.1 h2⟩

/-- C10, amended: on a list of at least two strings with first string
`first`, `FindCommonSuffix` returns the empty string when `first` is empty;
when `first` is not empty it returns the longest string that is a suffix of
every input and a proper suffix `first[i:]`, `i ≥ 1`, of `first`, so never
the whole of `first`, and its length is `min(len(first) - 1, L)` for the
length `L` of the longest common suffix. -/
theorem FindCommonSuffix_proper (input : List GoString) (first : GoString)
    (hlen : 2 ≤ input.length) (h0 : input[0]? = some first) :
    ∃ r, FindCommonSuffix input = some r ∧
      (first = [] → r = []) ∧
      (first ≠ [] →
        IsCommonSuffix input r ∧
        (∃ i, 1 ≤ i ∧ i ≤ first.length ∧ r = first.drop i) ∧
        r.length < first.length ∧ r ≠ first ∧
        ∀ t, IsCommonSuffix input t → t.length < first.length → t.length ≤ r.length) ∧
      ∃ c, IsLongestCommonSuffix input c ∧
        (first ≠ [] → len r = min (len first - 1) (len c)) ∧
        (first = [] → len r = 0) := by
  cases input with
  | nil => simp at hlen
  | cons f rest =>
    simp only [List.getElem?_cons_zero, Option.some.injEq] at h0
    subst h0
    by_cases hne : f = []
    · subst hne
      refine ⟨[], findCommonSuffix_first_empty rest hlen, fun _ => rfl,
        fun h => absurd rfl h, [], ⟨isCommonSuffix_nil _, ?_⟩, fun h => absurd rfl h,
        fun _ => rfl⟩
      intro t ht
      have := (isCommonSuffix_eq_drop [] rest t ht).2
      simpa using this
    · obtain ⟨j, hj1, hj2, hfc, hcom, hmin⟩ := findCommonSuffix_least f rest hlen hne
      have hrlen : (f.drop j).length = f.length - j := List.length_drop j f
      have hbest : ∀ t, IsCommonSuffix (f :: rest) t → t.length < f.length →
          t.length ≤ (f.drop j).length := by
        intro t ht hlt
        obtain ⟨hteq, htle⟩ := isCommonSuffix_eq_drop f rest t ht
        have hjk : j ≤ f.length - t.length := by
          by_contra hcon
          apply hmin (f.length - t.length) (by omega) (by omega)
          rw [← hteq]
          exact ht
        omega
      have hrne : f.drop j ≠ f := by
        intro h
        have := congrArg List.length h
        omega
      refine ⟨f.drop j, hfc, fun h => absurd h hne,
        fun _ => ⟨hcom, ⟨j, hj1, hj2, rfl⟩, by omega, hrne, hbest⟩, ?_⟩
      by_cases hall : IsCommonSuffix (f :: rest) f
      · have hj : j = 1 := by
          by_contra hcon
          apply hmin 1 (le_refl _) (by omega)
          have h0 : IsCommonSuffix (f :: rest) (f.drop 0) := by simpa using hall
          exact isCommonSuffix_drop_mono (f :: rest) f 0 1 (by omega) h0
        refine ⟨f, ⟨hall, ?_⟩, ?_, fun h => absurd h hne⟩
        · intro t ht
          exact (isCommonSuffix_eq_drop f rest t ht).2
        · intro _
          unfold len
          rw [hrlen, hj]
          omega
      · refine ⟨f.drop j, ⟨hcom, ?_⟩, ?_, fun h => absurd h hne⟩
        · intro t ht
          obtain ⟨hteq, htle⟩ := isCommonSuffix_eq_drop f rest t ht
          apply hbest t ht
          by_contra hcon
          have hfull : t.length = f.length := by omega
          apply hall
          have : t = f := by
            rw [hteq, hfull]
            simp
          rw [this] at ht
          exact ht
        · intro _
          unfold len
          rw [hrlen]
          omega

/-- The amended C10 at the spec's example `["node1.example.com", "node2.example.com"]`. -/
theorem FindCommonSuffix_proper_witness :
    ∃ r, FindCommonSuffix [lit "node1.example.com", lit "node2.example.com"] = some r ∧
      (lit "node1.example.com" = [] → r = []) ∧
      (lit "node1.example.com" ≠ [] →
        IsCommonSuffix [lit "node1.example.com", lit "node2.example.com"] r ∧
        (∃ i, 1 ≤ i ∧ i ≤ (lit "node1.example.com").length ∧
          r = (lit "node1.example.com").drop i) ∧
        r.length < (lit "node1.example.com").length ∧ r ≠ lit "node1.example.com" ∧
        ∀ t, IsCommonSuffix [lit "node1.example.com", lit "node2.example.com"] t →
          t.length < (lit "node1.example.com").length → t.length ≤ r.length) ∧
      ∃ c, IsLongestCommonSuffix [lit "node1.example.com", lit "node2.example.com"] c ∧
        (lit "node1.example.com" ≠ [] →
          len r = min (len (lit "node1.example.com") - 1) (len c)) ∧
        (lit "node1.example.com" = [] → len r = 0) :=
  FindCommonSuffix_proper [lit "node1.example.com", lit "node2.example.com"]
    (lit "node1.example.com") (by decide) (by decide)

/-- C10, as stated, fails on `["", "a"]`: the result is the empty string, the
longest common suffix is the empty string, so `L = 0`, and the result's
length `0` is not `min(len(input[0]) - 1, L) = -1`. -/
theorem FindCommonSuffix_length_formula_fails :
    2 ≤ [lit "", lit "a"].length ∧
    FindCommonSuffix [lit "", lit "a"] = some (lit "") ∧
    IsLongestCommonSuffix [lit "", lit "a"] (lit "") ∧
    len (lit "") ≠ min (len (lit "") - 1) (len (lit "")) := by
  refine ⟨by decide, by decide, ⟨isCommonSuffix_nil _, ?_⟩, by decide⟩
  intro t ht
  have h : t <:+ lit "" := ht (lit "") (List.mem_cons_self _ _)
  exact h.length_le

/-- C1: on `["example.com", "node1.example.com"]` the code returns
`"xample.com"`, although the longer string `"example.com"` is a suffix of both
inputs; on the spec's own example the code does return `".example.com"`. -/
theorem FindCommonSuffix_not_longest :
    FindCommonSuffix [lit "example.com", lit "node1.example.com"] = some (lit "xample.com") ∧
    IsCommonSuffix [lit "example.com", lit "node1.example.com"] (lit "example.com") ∧
    (lit "xample.com").length < (lit "example.com").length ∧
    FindCommonSuffix [lit "node1.example.com", lit "node2.example.com"]
      = some (lit ".example.com") := by
  refine ⟨by decide, ?_, by decide, by decide⟩
  intro s hs
  simp only [List.mem_cons, List.mem_singleton, List.not_mem_nil, or_false] at hs
  rcases hs with rfl | rfl
  · exact List.suffix_refl _
  · exact ⟨lit "node1.", by decide⟩

/-- C2: on two identical strings `"abc"` the code returns `"bc"`, not the
full string. -/
theorem FindCommonSuffix_identical_drops_first_byte :
    FindCommonSuffix [lit "abc", lit "abc"] = some (lit "bc") ∧
    lit "bc" ≠ lit "abc" := by
  exact ⟨by decide, by decide⟩

/-! ## URLValidator -/

/-- C6: `ParseURL` never returns a URL whose scheme is empty; whenever the
parser yields a URL with an empty scheme, `ParseURL` returns no URL and an
error whose message is `invalid URL <raw>`. -/
theorem ParseURL_rejects_empty_scheme
    (parse : GoString → Option URL × Option GoError) (raw : GoString) :
    (∀ u, (ParseURL parse raw).1 = some u → u.Scheme ≠ []) ∧
    (∀ u e, parse raw = (some u, e) → u.Scheme = [] →
      (ParseURL parse raw).1 = none ∧
      ∃ err, (ParseURL parse raw).2 = some err ∧
        err.Error = lit "invalid URL <" ++ raw ++ lit ">") := by
  constructor
  · intro u hu
    unfold ParseURL at hu
    rcases hp : parse raw with ⟨_ | result, err⟩
    · rw [hp] at hu
      simp at hu
    · rw [hp] at hu
      by_cases hs : result.Scheme = []
      · simp [hs] at hu
      · simp only [hs, if_false, Option.some.injEq] at hu
        rw [← hu]
        exact hs
  · intro u e hp hs
    unfold ParseURL
    rw [hp]
    simp only []
    rw [if_pos hs]
    exact ⟨rfl, _, rfl, rfl⟩

/-- The rejection of C6 at `host/path`, parsed to a URL without a scheme. -/
theorem ParseURL_rejects_empty_scheme_witness :
    (ParseURL parseNoScheme (lit "host/path")).1 = none ∧
    ∃ err, (ParseURL parseNoScheme (lit "host/path")).2 = some err ∧
      err.Error = lit "invalid URL <" ++ lit "host/path" ++ lit ">" :=
  (ParseURL_rejects_empty_scheme parseNoScheme (lit "host/path")).2
    ⟨[], [], lit "host/path", [], []⟩ none rfl rfl

/-- C7: when the parser fails, `ParseURL` returns no URL and the parser's
error; when the parser yields a URL with a non-empty scheme, `ParseURL`
returns that URL and the parser's error value, `nil` on success. -/
theorem ParseURL_passes_through
    (parse : GoString → Option URL × Option GoError) (raw : GoString) :
    (∀ e, parse raw = (none, e) → ParseURL parse raw = (none, e)) ∧
    (∀ u e, parse raw = (some u, e) → u.Scheme ≠ [] → ParseURL parse raw = (some u, e)) := by
  constructor
  · intro e hp
    unfold ParseURL
    rw [hp]
  · intro u e hp hs
    unfold ParseURL
    rw [hp]
    simp only [hs, if_false]

/-- The two cases of C7: a failing parser, and `http://host/path`. -/
theorem ParseURL_passes_through_witness :
    ParseURL parseFails (lit "%zz") = (none, some (GoError.external (lit "parse error"))) ∧
    ParseURL parseHttp (lit "http://host/path") =
      (some ⟨lit "http", lit "host", lit "/path", [], []⟩, none) :=
  ⟨(ParseURL_passes_through parseFails (lit "%zz")).1 _ rfl,
   (ParseURL_passes_through parseHttp (lit "http://host/path")).2 _ _ rfl (by decide)⟩

/-! ## CallTracer -/

/-- C9: with `n` the name `TraceEnter` resolves (the fallback `<unknown>`
when `runtime.Caller` fails), `TraceEnterExtra(e)` returns `n ++ "-" ++ e`
when `e` is not empty and `n` when `e` is empty; called from `main.Foo` with
`retry1` it returns `Foo-retry1`. -/
theorem TraceEnterExtra_name (rt : Runtime) (e : GoString) :
    (e ≠ [] → (TraceEnterExtra rt e).1 = (TraceEnter rt).1 ++ lit "-" ++ e) ∧
    (e = [] → (TraceEnterExtra rt e).1 = (TraceEnter rt).1) ∧
    (rt.Caller 1 = none → (TraceEnter rt).1 = lit "<unknown>") ∧
    (∀ pc, rt.Caller 1 = some pc → (TraceEnter rt).1 = stripFnPreamble (rt.FuncName pc)) ∧
    (TraceEnterExtra (fooRuntime 0) (lit "retry1")).1 = lit "Foo-retry1" := by
  refine ⟨?_, ?_, ?_, ?_, by decide⟩
  · intro he
    simp [TraceEnterExtra, TraceEnter, he]
  · intro he
    simp [TraceEnterExtra, TraceEnter, he]
  · intro hc
    simp [TraceEnter, hc]
  · intro pc hc
    simp [TraceEnter, hc]

/-- The two cases of C9 for a call from `main.Foo`. -/
theorem TraceEnterExtra_name_witness :
    (TraceEnterExtra (fooRuntime 0) (lit "retry1")).1 =
      (TraceEnter (fooRuntime 0)).1 ++ lit "-" ++ lit "retry1" ∧
    (TraceEnterExtra (fooRuntime 0) []).1 = (TraceEnter (fooRuntime 0)).1 ∧
    (TraceEnter (fooRuntime 0)).1 = lit "Foo" :=
  ⟨(TraceEnterExtra_name (fooRuntime 0) (lit "retry1")).1 (by decide),
   (TraceEnterExtra_name (fooRuntime 0) []).2.1 rfl, by decide⟩

/-- C8: with `d = time.Since(timeEntered)` nanoseconds, `TraceExit` emits
exactly one line, `<functionName>() took <seconds> seconds`, when
`d ≥ 1,000,000,000`, and nothing for every shorter (or negative) `d`. -/
theorem TraceExit_threshold (rt : Runtime) (fl : Float64) (hfl : fl.Sound)
    (functionName : GoString) (timeEntered : Int) :
    (1000000000 ≤ rt.Since timeEntered →
      TraceExit rt fl functionName timeEntered =
        [functionName ++ lit "() took " ++ fl.fmt (Seconds fl (rt.Since timeEntered)) ++
          lit " seconds"]) ∧
    (rt.Since timeEntered < 1000000000 → TraceExit rt fl functionName timeEntered = []) ∧
    ((TraceExit rt fl functionName timeEntered).length = 1 ↔
      1000000000 ≤ rt.Since timeEntered) := by
  have hiff := seconds_ge_one_iff fl hfl (rt.Since timeEntered)
  have hyes : 1000000000 ≤ rt.Since timeEntered →
      TraceExit rt fl functionName timeEntered =
        [functionName ++ lit "() took " ++ fl.fmt (Seconds fl (rt.Since timeEntered)) ++
          lit " seconds"] := by
    intro h
    unfold TraceExit
    simp only []
    rw [if_pos (hiff.2 h)]
  have hno : rt.Since timeEntered < 1000000000 →
      TraceExit rt fl functionName timeEntered = [] := by
    intro h
    have hn : ¬ Seconds fl (rt.Since timeEntered) ≥ 1 := fun hs => by
      have := hiff.1 hs
      omega
    unfold TraceExit
    simp only []
    rw [if_neg hn]
  refine ⟨hyes, hno, ?_⟩
  by_cases h : 1000000000 ≤ rt.Since timeEntered
  · rw [hyes h]
    simp [h]
  · rw [hno (by omega)]
    simp [h]

/-- The cases of C8 at 1.5 s, at one nanosecond under 1 s, and at a negative
duration, under exact arithmetic. -/
theorem TraceExit_threshold_witness :
    TraceExit (fooRuntime 1500000000) (exactFloat (fun _ => lit "1.5")) (lit "Foo") 0 =
      [lit "Foo" ++ lit "() took " ++ lit "1.5" ++ lit " seconds"] ∧
    TraceExit (fooRuntime 999999999) (exactFloat (fun _ => lit "1")) (lit "Foo") 0 = [] ∧
    TraceExit (fooRuntime (-5)) (exactFloat (fun _ => lit "0")) (lit "Foo") 0 = [] :=
  ⟨(TraceExit_threshold (fooRuntime 1500000000) (exactFloat (fun _ => lit "1.5"))
      (exactFloat_sound _) (lit "Foo") 0).1 (by decide),
   (TraceExit_threshold (fooRuntime 999999999) (exactFloat (fun _ => lit "1"))
      (exactFloat_sound _) (lit "Foo") 0).2.1 (by decide),
   (TraceExit_threshold (fooRuntime (-5)) (exactFloat (fun _ => lit "0"))
      (exactFloat_sound _) (lit "Foo") 0).2.1 (by decide)⟩

end Couchbase
